import Mathlib

/-!
# Verification of the expense-splitter settlement engine

Shallow embedding of the settlement computation of the expense splitter
(`utils.py`, `models.py`, `app.py`).  Monetary quantities are modelled as
rationals; the Python float literal `0.01` becomes the rational `1/100`.
The in-place mutation of participant objects is modelled by a balance map
indexed by the position of each participant in the input list, which is
exactly the aliasing structure of the source: `debtors` and `creditors`
hold references (here: indices) into the one participant list, and loop
updates through either list are visible in the returned participants.
The unbounded `while` loop of the source is modelled with explicit fuel
`count(debtors) + count(creditors)`; the termination theorem below proves
that this fuel always suffices (the guard is false at the final state),
so the model and the source loop agree on every input.
-/

/-- Mirror of `models.Participant` (dataclass): `name`, `contribution`,
optional `phone_number`, and the mutable `settlement_amount` field that
`calculate_settlements` writes (default `0.0`). -/
structure Participant where
  name : String
  contribution : ℚ
  phone_number : Option String := none
  settlement_amount : ℚ := 0
deriving Repr, DecidableEq

/-- Mirror of `models.Settlement` (dataclass): `from_person`, `to_person`,
`amount`. -/
structure Settlement where
  from_person : String
  to_person : String
  amount : ℚ
deriving Repr, DecidableEq

/-- The dictionary produced by `Settlement.to_dict` in `models.py`. -/
structure SettlementDict where
  from_person : String
  to_person : String
  amount : ℚ
deriving Repr, DecidableEq

/-- Default participant used for out-of-range index reads in the model
(never reached on the indices the algorithm actually uses). -/
def P0 : Participant := { name := "", contribution := 0 }

/-- `utils.py` line 41: `per_person_share = total_amount / len(participants)`. -/
def per_person_share (participants : List Participant) (total_amount : ℚ) : ℚ :=
  total_amount / (participants.length : ℚ)

/-- `utils.py` lines 44-45: set `settlement_amount = contribution - per_person_share`
for every participant. -/
def setBalances (participants : List Participant) (total_amount : ℚ) : List Participant :=
  participants.map fun p =>
    { p with settlement_amount := p.contribution - per_person_share participants total_amount }

/-- Balance of the participant at index `k` of the annotated list. -/
def balAt (qs : List Participant) : ℕ → ℚ := fun k => (qs.getD k P0).settlement_amount

/-- Name of the participant at index `k` of the annotated list. -/
def nameAt (qs : List Participant) : ℕ → String := fun k => (qs.getD k P0).name

/-- `utils.py` lines 48 and 52: the debtors
(`settlement_amount < -0.01`), sorted ascending by balance with a stable
sort, exactly as Python `list.sort(key=...)`.  Participant objects are
modelled by their indices in the annotated list. -/
def debtorsOf (qs : List Participant) : List ℕ :=
  List.insertionSort (fun m n => balAt qs m ≤ balAt qs n)
    ((List.range qs.length).filter fun k => balAt qs k < -(1/100))

/-- `utils.py` lines 49 and 53: the creditors (`settlement_amount > 0.01`),
sorted descending by balance with a stable sort (Python `reverse=True`). -/
def creditorsOf (qs : List Participant) : List ℕ :=
  List.insertionSort (fun m n => balAt qs n ≤ balAt qs m)
    ((List.range qs.length).filter fun k => 1/100 < balAt qs k)

/-- State of the matching loop of `utils.py` lines 56-82: the balance map
(one cell per participant index, shared between the debtor and creditor
views, as the mutated Python objects are), the two pointers and the
accumulated settlements. -/
structure SettleState where
  bal : ℕ → ℚ
  i : ℕ
  j : ℕ
  settlements : List Settlement

/-- One iteration of the `while` body of `utils.py` lines 59-82. -/
def settleStep (names : ℕ → String) (debtors creditors : List ℕ) (s : SettleState) :
    SettleState :=
  let di := debtors.getD s.i 0
  let cj := creditors.getD s.j 0
  let debt_amount := |s.bal di|
  let credit_amount := s.bal cj
  let settlement_amount := min debt_amount credit_amount
  let bal1 : ℕ → ℚ := fun k => if k = di then s.bal di + settlement_amount else s.bal k
  let bal2 : ℕ → ℚ := fun k => if k = cj then bal1 cj - settlement_amount else bal1 k
  { bal := bal2
    i := if |bal2 di| < 1/100 then s.i + 1 else s.i
    j := if |bal2 cj| < 1/100 then s.j + 1 else s.j
    settlements := s.settlements ++
      [{ from_person := names di, to_person := names cj, amount := settlement_amount }] }

/-- The `while i < len(debtors) and j < len(creditors)` loop, with explicit
fuel.  The termination theorem proves fuel `len(debtors) + len(creditors)`
always reaches a state with a false guard, so this agrees with the
unbounded source loop. -/
def settleLoop (names : ℕ → String) (debtors creditors : List ℕ) :
    ℕ → SettleState → SettleState
  | 0, s => s
  | fuel + 1, s =>
    if s.i < debtors.length ∧ s.j < creditors.length then
      settleLoop names debtors creditors fuel (settleStep names debtors creditors s)
    else s

/-- Initial loop state: balances as annotated in step 2, `i = j = 0`,
no settlements. -/
def initState (qs : List Participant) : SettleState :=
  { bal := balAt qs, i := 0, j := 0, settlements := [] }

/-- Run the matching loop of `utils.py` on an annotated participant list. -/
def runSettle (qs : List Participant) : SettleState :=
  settleLoop (nameAt qs) (debtorsOf qs) (creditorsOf qs)
    ((debtorsOf qs).length + (creditorsOf qs).length) (initState qs)

/-- Read the final (post-loop) balances back into the participant list:
the source returns the very objects it mutated, so the returned list is
the annotated list with each `settlement_amount` replaced by the final
value of its balance cell. -/
def annotate : List Participant → (ℕ → ℚ) → ℕ → List Participant
  | [], _, _ => []
  | p :: rest, bal, k => { p with settlement_amount := bal k } :: annotate rest bal (k + 1)

/-- `utils.calculate_settlements`: guard for the empty list (lines 37-38),
balance annotation (lines 41-45), partition and sort (lines 48-53),
greedy matching loop (lines 56-82), return of the mutated participants
and the settlements (line 84). -/
def calculate_settlements (participants : List Participant) (total_amount : ℚ) :
    List Participant × List Settlement :=
  match participants with
  | [] => ([], [])
  | _ :: _ =>
    let qs := setBalances participants total_amount
    (annotate qs (runSettle qs).bal 0, (runSettle qs).settlements)

/-- Round half to even at integer precision, the rounding mode of Python
`round`. -/
def roundHalfEven (q : ℚ) : ℤ :=
  if q - (⌊q⌋ : ℚ) < 1/2 then ⌊q⌋
  else if 1/2 < q - (⌊q⌋ : ℚ) then ⌊q⌋ + 1
  else if ⌊q⌋ % 2 = 0 then ⌊q⌋ else ⌊q⌋ + 1

/-- Python `round(x, 2)`: round half to even at two decimal places. -/
def round2 (q : ℚ) : ℚ := (roundHalfEven (q * 100) : ℚ) / 100

/-- `models.Settlement.to_dict`: serialize with the amount rounded to two
decimal places. -/
def Settlement.to_dict (s : Settlement) : SettlementDict :=
  { from_person := s.from_person, to_person := s.to_person, amount := round2 s.amount }

/-- Sum of the amounts of the settlements whose receiver is `name`. -/
def inSum (name : String) (ts : List Settlement) : ℚ :=
  (ts.map fun t => if t.to_person = name then t.amount else 0).sum

/-- Sum of the amounts of the settlements whose payer is `name`. -/
def outSum (name : String) (ts : List Settlement) : ℚ :=
  (ts.map fun t => if t.from_person = name then t.amount else 0).sum

/-- `config.Config.MIN_AMOUNT`. -/
def MIN_AMOUNT : ℚ := 1/100

/-- `config.Config.MAX_AMOUNT`. -/
def MAX_AMOUNT : ℚ := 1000000

/-- `config.Config.MAX_PARTICIPANTS`. -/
def MAX_PARTICIPANTS : ℤ := 50

/-- `utils.validate_phone_number`: strip non-digit characters and require
10 to 15 digits; the empty string is rejected. -/
def validate_phone_number (phone : String) : Bool :=
  if phone = "" then false
  else
    let digits := phone.toList.filter Char.isDigit
    decide (10 ≤ digits.length ∧ digits.length ≤ 15)

/-- One participant record of the JSON payload of `POST /api/expenses`:
`name`, numeric `contribution`, and `phone_number` (the empty string when
absent, matching `p.get('phone_number', '')`). -/
structure PInputData where
  name : String
  contribution : ℚ
  phone_number : String := ""
deriving Repr, DecidableEq

/-- The JSON payload of `POST /api/expenses`, with the fields present and
already numeric (the missing-field and parse-failure branches of the
source concern dynamic typing and are outside this value-level model). -/
structure ExpenseData where
  total_amount : ℚ
  num_people : ℤ
  participants : List PInputData := []
deriving Repr, DecidableEq

/-- The per-participant loop of `utils.validate_expense_data` lines
184-200: in input order, check the name is non-blank, the contribution
non-negative and any supplied phone number valid, accumulating the total
of the contributions; the first failure yields its error message. -/
def checkParticipants : List PInputData → ℚ → Except String ℚ
  | [], total_contributions => .ok total_contributions
  | p :: rest, total_contributions =>
    if p.name.trim = "" then .error "All participants must have a name"
    else if p.contribution < 0 then
      .error ("Contribution for " ++ p.name ++ " cannot be negative")
    else if p.phone_number.trim ≠ "" ∧ validate_phone_number p.phone_number.trim = false then
      .error ("Invalid phone number for " ++ p.name)
    else checkParticipants rest (total_contributions + p.contribution)

/-- `utils.validate_expense_data`: the sequential checks of lines 152-206
on an already-typed payload, returning `(is_valid, error_message)`. -/
def validate_expense_data (data : ExpenseData) : Bool × String :=
  if data.total_amount < MIN_AMOUNT then (false, "Total amount must be at least $0.01")
  else if MAX_AMOUNT < data.total_amount then (false, "Total amount cannot exceed $1000000")
  else if data.num_people < 1 then (false, "Number of people must be at least 1")
  else if MAX_PARTICIPANTS < data.num_people then (false, "Number of people cannot exceed 50")
  else
    match data.participants with
    | [] => (true, "")
    | ps =>
      if (ps.length : ℤ) ≠ data.num_people then
        (false, "Number of participants must match num_people")
      else
        match checkParticipants ps 0 with
        | .error msg => (false, msg)
        | .ok total_contributions =>
          if 1/100 < |total_contributions - data.total_amount| then
            (false, "Sum of contributions must equal total amount")
          else (true, "")

/-- The part of `app.create_expense` relevant to the settlement engine:
validate, on failure answer the error without invoking the engine
(lines 35-37), otherwise build the participant list (explicit
contributions, or an equal split over `num_people` default participants)
and invoke `calculate_settlements` (lines 44-68). -/
def create_expense (data : ExpenseData) : Except String (List Participant × List Settlement) :=
  let v := validate_expense_data data
  if v.1 = false then .error v.2
  else
    let participants :=
      match data.participants with
      | [] =>
        (List.range data.num_people.toNat).map fun k =>
          { name := "Person " ++ toString (k + 1),
            contribution := data.total_amount / (data.num_people : ℚ) : Participant }
      | ps =>
        ps.map fun p =>
          { name := p.name.trim, contribution := p.contribution,
            phone_number := if p.phone_number.trim = "" then none else some p.phone_number.trim }
    .ok (calculate_settlements participants data.total_amount)

/-! ## Basic facts about the annotation, the partition and the sorts -/

theorem length_setBalances (ps : List Participant) (T : ℚ) :
    (setBalances ps T).length = ps.length := by
  simp [setBalances]

theorem getD_setBalances (ps : List Participant) (T : ℚ) {k : ℕ} (hk : k < ps.length) :
    (setBalances ps T).getD k P0 =
      { ps.getD k P0 with
        settlement_amount := (ps.getD k P0).contribution - per_person_share ps T } := by
  have hk' : k < (setBalances ps T).length := by rwa [length_setBalances]
  rw [List.getD_eq_getElem _ _ hk', List.getD_eq_getElem _ _ hk]
  simp [setBalances]

theorem balAt_setBalances (ps : List Participant) (T : ℚ) {k : ℕ} (hk : k < ps.length) :
    balAt (setBalances ps T) k = (ps.getD k P0).contribution - T / (ps.length : ℚ) := by
  show ((setBalances ps T).getD k P0).settlement_amount = _
  rw [getD_setBalances ps T hk]
  rfl

theorem nameAt_setBalances (ps : List Participant) (T : ℚ) {k : ℕ} (hk : k < ps.length) :
    nameAt (setBalances ps T) k = (ps.getD k P0).name := by
  show ((setBalances ps T).getD k P0).name = _
  rw [getD_setBalances ps T hk]

theorem map_name_setBalances (ps : List Participant) (T : ℚ) :
    (setBalances ps T).map Participant.name = ps.map Participant.name := by
  simp [setBalances, List.map_map]

theorem mem_debtorsOf {qs : List Participant} {n : ℕ} :
    n ∈ debtorsOf qs ↔ n < qs.length ∧ balAt qs n < -(1/100) := by
  simp [debtorsOf, List.mem_insertionSort, List.mem_filter, List.mem_range]

theorem mem_creditorsOf {qs : List Participant} {n : ℕ} :
    n ∈ creditorsOf qs ↔ n < qs.length ∧ 1/100 < balAt qs n := by
  simp [creditorsOf, List.mem_insertionSort, List.mem_filter, List.mem_range]

theorem nodup_debtorsOf (qs : List Participant) : (debtorsOf qs).Nodup :=
  (List.perm_insertionSort _ _).nodup_iff.mpr (List.Nodup.filter _ (List.nodup_range _))

theorem nodup_creditorsOf (qs : List Participant) : (creditorsOf qs).Nodup :=
  (List.perm_insertionSort _ _).nodup_iff.mpr (List.Nodup.filter _ (List.nodup_range _))

theorem getD_mem_self {l : List ℕ} {k : ℕ} (h : k < l.length) : l.getD k 0 ∈ l := by
  rw [List.getD_eq_getElem _ _ h]
  exact List.getElem_mem h

theorem getD_ne_of_nodup {l : List ℕ} (hl : l.Nodup) {k1 k2 : ℕ}
    (h1 : k1 < l.length) (h2 : k2 < l.length) (hne : k1 ≠ k2) :
    l.getD k1 0 ≠ l.getD k2 0 := by
  rw [List.getD_eq_getElem _ _ h1, List.getD_eq_getElem _ _ h2]
  exact fun h => hne (hl.getElem_inj_iff.mp h)

theorem debtor_ne_creditor {qs : List Participant} {m n : ℕ}
    (hm : m ∈ debtorsOf qs) (hn : n ∈ creditorsOf qs) : m ≠ n := by
  rintro rfl
  have h1 := (mem_debtorsOf.mp hm).2
  have h2 := (mem_creditorsOf.mp hn).2
  linarith

theorem length_annotate (l : List Participant) (f : ℕ → ℚ) (k : ℕ) :
    (annotate l f k).length = l.length := by
  induction l generalizing k with
  | nil => rfl
  | cons p rest ih => simp [annotate, ih]

theorem mem_annotate {l : List Participant} {f : ℕ → ℚ} {k : ℕ} {p : Participant} :
    p ∈ annotate l f k ↔
      ∃ m, m < l.length ∧ p = { l.getD m P0 with settlement_amount := f (k + m) } := by
  induction l generalizing k with
  | nil => simp [annotate]
  | cons q rest ih =>
    simp only [annotate, List.mem_cons, ih]
    constructor
    · rintro (rfl | ⟨m, hm, rfl⟩)
      · exact ⟨0, by simp, by simp⟩
      · refine ⟨m + 1, Nat.succ_lt_succ hm, ?_⟩
        rw [List.getD_cons_succ, show k + (m + 1) = k + 1 + m by omega]
    · rintro ⟨m, hm, rfl⟩
      match m with
      | 0 => exact Or.inl (by simp)
      | m + 1 =>
        refine Or.inr ⟨m, Nat.lt_of_succ_lt_succ hm, ?_⟩
        rw [List.getD_cons_succ, show k + (m + 1) = k + 1 + m by omega]

theorem outSum_append (name : String) (ts : List Settlement) (t : Settlement) :
    outSum name (ts ++ [t]) =
      outSum name ts + (if t.from_person = name then t.amount else 0) := by
  simp [outSum]

theorem inSum_append (name : String) (ts : List Settlement) (t : Settlement) :
    inSum name (ts ++ [t]) =
      inSum name ts + (if t.to_person = name then t.amount else 0) := by
  simp [inSum]

/-- The participant names, read through `nameAt`, are injective on valid
indices. -/
def NameInj (qs : List Participant) : Prop :=
  ∀ m n, m < qs.length → n < qs.length → nameAt qs m = nameAt qs n → m = n

theorem nameInj_of_nodup {l : List Participant}
    (h : (l.map Participant.name).Nodup) : NameInj l := by
  intro m n hm hn hmn
  have hm' : m < (l.map Participant.name).length := by simpa using hm
  have hn' : n < (l.map Participant.name).length := by simpa using hn
  have hg : (l.map Participant.name)[m] = (l.map Participant.name)[n] := by
    rw [List.getElem_map, List.getElem_map]
    rw [← List.getD_eq_getElem l P0 hm, ← List.getD_eq_getElem l P0 hn]
    exact hmn
  exact h.getElem_inj_iff.mp hg

/-! ## The loop invariant -/

/-- Invariant of the matching loop: pointers in range; every debtor not
yet reached owes at least one cent and every creditor not yet reached is
owed at least one cent; every fully processed party is within one cent of
zero; untouched cells keep their initial balance; every emitted
settlement moves at least one cent, from a debtor name to a creditor
name; and the number of settlements is at most `i + j`. -/
structure LoopInv (qs : List Participant) (s : SettleState) : Prop where
  hi : s.i ≤ (debtorsOf qs).length
  hj : s.j ≤ (creditorsOf qs).length
  cur_deb : ∀ k, s.i ≤ k → k < (debtorsOf qs).length →
    s.bal ((debtorsOf qs).getD k 0) ≤ -(1/100)
  cur_cred : ∀ k, s.j ≤ k → k < (creditorsOf qs).length →
    1/100 ≤ s.bal ((creditorsOf qs).getD k 0)
  done_deb : ∀ k, k < s.i → |s.bal ((debtorsOf qs).getD k 0)| < 1/100
  done_cred : ∀ k, k < s.j → |s.bal ((creditorsOf qs).getD k 0)| < 1/100
  untouched : ∀ n, n ∉ debtorsOf qs → n ∉ creditorsOf qs → s.bal n = balAt qs n
  amounts : ∀ t ∈ s.settlements, 1/100 ≤ t.amount
  from_names : ∀ t ∈ s.settlements, ∃ m ∈ debtorsOf qs, t.from_person = nameAt qs m
  to_names : ∀ t ∈ s.settlements, ∃ m ∈ creditorsOf qs, t.to_person = nameAt qs m
  count : s.settlements.length ≤ s.i + s.j

/-- Ledger: the current balance of every participant cell equals its
initial balance plus what it has paid so far minus what it has received
so far. -/
def Ledger (qs : List Participant) (s : SettleState) : Prop :=
  ∀ n, n < qs.length →
    s.bal n = balAt qs n + outSum (nameAt qs n) s.settlements
      - inSum (nameAt qs n) s.settlements

theorem settleStep_bal_deb (names : ℕ → String) (debtors creditors : List ℕ) (s : SettleState)
    {di cj : ℕ} (hdi : debtors.getD s.i 0 = di) (hcj : creditors.getD s.j 0 = cj)
    (hne : di ≠ cj) :
    (settleStep names debtors creditors s).bal di =
      s.bal di + min |s.bal di| (s.bal cj) := by
  simp only [settleStep, hdi, hcj]
  simp [hne, Ne.symm hne]

theorem settleStep_bal_cred (names : ℕ → String) (debtors creditors : List ℕ) (s : SettleState)
    {di cj : ℕ} (hdi : debtors.getD s.i 0 = di) (hcj : creditors.getD s.j 0 = cj)
    (hne : di ≠ cj) :
    (settleStep names debtors creditors s).bal cj =
      s.bal cj - min |s.bal di| (s.bal cj) := by
  simp only [settleStep, hdi, hcj]
  simp [hne, Ne.symm hne]

theorem settleStep_bal_other (names : ℕ → String) (debtors creditors : List ℕ)
    (s : SettleState) {di cj n : ℕ} (hdi : debtors.getD s.i 0 = di)
    (hcj : creditors.getD s.j 0 = cj) (h1 : n ≠ di) (h2 : n ≠ cj) :
    (settleStep names debtors creditors s).bal n = s.bal n := by
  simp only [settleStep, hdi, hcj]
  simp [h1, h2]

theorem settleStep_i (names : ℕ → String) (debtors creditors : List ℕ) (s : SettleState)
    {di cj : ℕ} (hdi : debtors.getD s.i 0 = di) (hcj : creditors.getD s.j 0 = cj)
    (hne : di ≠ cj) :
    (settleStep names debtors creditors s).i =
      if |s.bal di + min |s.bal di| (s.bal cj)| < 1/100 then s.i + 1 else s.i := by
  simp only [settleStep, hdi, hcj]
  simp [hne, Ne.symm hne]

theorem settleStep_j (names : ℕ → String) (debtors creditors : List ℕ) (s : SettleState)
    {di cj : ℕ} (hdi : debtors.getD s.i 0 = di) (hcj : creditors.getD s.j 0 = cj)
    (hne : di ≠ cj) :
    (settleStep names debtors creditors s).j =
      if |s.bal cj - min |s.bal di| (s.bal cj)| < 1/100 then s.j + 1 else s.j := by
  simp only [settleStep, hdi, hcj]
  simp [hne, Ne.symm hne]

theorem settleStep_settlements (names : ℕ → String) (debtors creditors : List ℕ)
    (s : SettleState) :
    (settleStep names debtors creditors s).settlements =
      s.settlements ++
        [{ from_person := names (debtors.getD s.i 0),
           to_person := names (creditors.getD s.j 0),
           amount := min |s.bal (debtors.getD s.i 0)| (s.bal (creditors.getD s.j 0)) }] := rfl

/-- One guarded step preserves the invariant, advances at least one
pointer (each by at most one), and preserves the ledger when names are
injective. -/
theorem settleStep_inv {qs : List Participant} {s : SettleState} (hs : LoopInv qs s)
    (hgi : s.i < (debtorsOf qs).length) (hgj : s.j < (creditorsOf qs).length) :
    LoopInv qs (settleStep (nameAt qs) (debtorsOf qs) (creditorsOf qs) s) ∧
      s.i + s.j + 1 ≤ (settleStep (nameAt qs) (debtorsOf qs) (creditorsOf qs) s).i +
        (settleStep (nameAt qs) (debtorsOf qs) (creditorsOf qs) s).j ∧
      (settleStep (nameAt qs) (debtorsOf qs) (creditorsOf qs) s).i ≤ s.i + 1 ∧
      (settleStep (nameAt qs) (debtorsOf qs) (creditorsOf qs) s).j ≤ s.j + 1 ∧
      (NameInj qs → Ledger qs s →
        Ledger qs (settleStep (nameAt qs) (debtorsOf qs) (creditorsOf qs) s)) := by
  set s' := settleStep (nameAt qs) (debtorsOf qs) (creditorsOf qs) s with hs'
  set di := (debtorsOf qs).getD s.i 0 with hdi
  set cj := (creditorsOf qs).getD s.j 0 with hcj
  have hdiMem : di ∈ debtorsOf qs := getD_mem_self hgi
  have hcjMem : cj ∈ creditorsOf qs := getD_mem_self hgj
  have hne : di ≠ cj := debtor_ne_creditor hdiMem hcjMem
  have hbd : s.bal di ≤ -(1/100) := hs.cur_deb s.i le_rfl hgi
  have hbc : 1/100 ≤ s.bal cj := hs.cur_cred s.j le_rfl hgj
  have habs : |s.bal di| = -(s.bal di) := abs_of_neg (by linarith)
  set m := min |s.bal di| (s.bal cj) with hm
  have hm100 : (1/100 : ℚ) ≤ m := le_min (by rw [habs]; linarith) hbc
  have hmd : m ≤ -(s.bal di) := by rw [hm, ← habs]; exact min_le_left _ _
  have hmc : m ≤ s.bal cj := min_le_right _ _
  have hchoice : m = -(s.bal di) ∨ m = s.bal cj := by
    rcases min_choice |s.bal di| (s.bal cj) with h | h
    · left; rw [hm, h, habs]
    · right; rw [hm, h]
  have hbal_d : s'.bal di = s.bal di + m :=
    settleStep_bal_deb _ _ _ _ hdi.symm hcj.symm hne
  have hbal_c : s'.bal cj = s.bal cj - m :=
    settleStep_bal_cred _ _ _ _ hdi.symm hcj.symm hne
  have hbal_o : ∀ n, n ≠ di → n ≠ cj → s'.bal n = s.bal n :=
    fun n h1 h2 => settleStep_bal_other _ _ _ _ hdi.symm hcj.symm h1 h2
  have hi' : s'.i = if |s.bal di + m| < 1/100 then s.i + 1 else s.i :=
    settleStep_i _ _ _ _ hdi.symm hcj.symm hne
  have hj' : s'.j = if |s.bal cj - m| < 1/100 then s.j + 1 else s.j :=
    settleStep_j _ _ _ _ hdi.symm hcj.symm hne
  have hsett : s'.settlements = s.settlements ++
      [{ from_person := nameAt qs di, to_person := nameAt qs cj, amount := m }] :=
    settleStep_settlements _ _ _ _
  have hii : s'.i = s.i + 1 ∨ s'.i = s.i := by rw [hi']; split <;> simp
  have hjj : s'.j = s.j + 1 ∨ s'.j = s.j := by rw [hj']; split <;> simp
  have hiLB : s.i ≤ s'.i := by rcases hii with h | h <;> omega
  have hjLB : s.j ≤ s'.j := by rcases hjj with h | h <;> omega
  have hadv : s.i + s.j + 1 ≤ s'.i + s'.j := by
    rcases hchoice with h | h
    · have hcond : |s.bal di + m| < 1/100 := by rw [h]; norm_num
      rw [hi', if_pos hcond]
      omega
    · have hcond : |s.bal cj - m| < 1/100 := by rw [h]; norm_num
      rw [hj', if_pos hcond]
      omega
  refine ⟨⟨?_, ?_, ?_, ?_, ?_, ?_, ?_, ?_, ?_, ?_, ?_⟩, hadv,
    (by rcases hii with h | h <;> omega), (by rcases hjj with h | h <;> omega), ?_⟩
  · rcases hii with h | h <;> omega
  · rcases hjj with h | h <;> omega
  · -- cur_deb
    intro k hk hklen
    rcases Nat.lt_or_ge s.i k with hik | hik
    · have hne1 : (debtorsOf qs).getD k 0 ≠ di := by
        rw [hdi]
        exact getD_ne_of_nodup (nodup_debtorsOf qs) hklen hgi (by omega)
      have hne2 : (debtorsOf qs).getD k 0 ≠ cj :=
        debtor_ne_creditor (getD_mem_self hklen) hcjMem
      rw [hbal_o _ hne1 hne2]
      exact hs.cur_deb k (by omega) hklen
    · have hk_eq : k = s.i := by omega
      have hcond : ¬ |s.bal di + m| < 1/100 := by
        intro hcond
        rw [hi', if_pos hcond] at hk
        omega
      have hle0 : s.bal di + m ≤ 0 := by linarith
      have habs2 : |s.bal di + m| = -(s.bal di + m) := abs_of_nonpos hle0
      rw [habs2] at hcond
      rw [hk_eq, ← hdi, hbal_d]
      linarith
  · -- cur_cred
    intro k hk hklen
    rcases Nat.lt_or_ge s.j k with hik | hik
    · have hne1 : (creditorsOf qs).getD k 0 ≠ cj := by
        rw [hcj]
        exact getD_ne_of_nodup (nodup_creditorsOf qs) hklen hgj (by omega)
      have hne2 : (creditorsOf qs).getD k 0 ≠ di := fun h =>
        (debtor_ne_creditor hdiMem (getD_mem_self hklen)) h.symm
      rw [hbal_o _ hne2 hne1]
      exact hs.cur_cred k (by omega) hklen
    · have hk_eq : k = s.j := by omega
      have hcond : ¬ |s.bal cj - m| < 1/100 := by
        intro hcond
        rw [hj', if_pos hcond] at hk
        omega
      have hge0 : 0 ≤ s.bal cj - m := by linarith
      have habs2 : |s.bal cj - m| = s.bal cj - m := abs_of_nonneg hge0
      rw [habs2] at hcond
      rw [hk_eq, ← hcj, hbal_c]
      linarith
  · -- done_deb
    intro k hk
    rcases Nat.lt_or_ge k s.i with hik | hik
    · have hne1 : (debtorsOf qs).getD k 0 ≠ di := by
        rw [hdi]
        exact getD_ne_of_nodup (nodup_debtorsOf qs) (by omega) hgi (by omega)
      have hne2 : (debtorsOf qs).getD k 0 ≠ cj :=
        debtor_ne_creditor (getD_mem_self (by omega)) hcjMem
      rw [hbal_o _ hne1 hne2]
      exact hs.done_deb k hik
    · have hk_eq : k = s.i := by rcases hii with h | h <;> omega
      have hcond : |s.bal di + m| < 1/100 := by
        by_contra hcond
        rw [hi', if_neg hcond] at hk
        omega
      rw [hk_eq, ← hdi, hbal_d]
      exact hcond
  · -- done_cred
    intro k hk
    rcases Nat.lt_or_ge k s.j with hik | hik
    · have hne1 : (creditorsOf qs).getD k 0 ≠ cj := by
        rw [hcj]
        exact getD_ne_of_nodup (nodup_creditorsOf qs) (by omega) hgj (by omega)
      have hne2 : (creditorsOf qs).getD k 0 ≠ di := fun h =>
        (debtor_ne_creditor hdiMem (getD_mem_self (by omega))) h.symm
      rw [hbal_o _ hne2 hne1]
      exact hs.done_cred k hik
    · have hk_eq : k = s.j := by rcases hjj with h | h <;> omega
      have hcond : |s.bal cj - m| < 1/100 := by
        by_contra hcond
        rw [hj', if_neg hcond] at hk
        omega
      rw [hk_eq, ← hcj, hbal_c]
      exact hcond
  · -- untouched
    intro n h1 h2
    have hn1 : n ≠ di := fun h => h1 (by rw [h]; exact hdiMem)
    have hn2 : n ≠ cj := fun h => h2 (by rw [h]; exact hcjMem)
    rw [hbal_o _ hn1 hn2]
    exact hs.untouched n h1 h2
  · -- amounts
    intro t ht
    rw [hsett] at ht
    rcases List.mem_append.mp ht with h | h
    · exact hs.amounts t h
    · rcases List.mem_singleton.mp h with rfl
      exact hm100
  · -- from_names
    intro t ht
    rw [hsett] at ht
    rcases List.mem_append.mp ht with h | h
    · exact hs.from_names t h
    · rcases List.mem_singleton.mp h with rfl
      exact ⟨di, hdiMem, rfl⟩
  · -- to_names
    intro t ht
    rw [hsett] at ht
    rcases List.mem_append.mp ht with h | h
    · exact hs.to_names t h
    · rcases List.mem_singleton.mp h with rfl
      exact ⟨cj, hcjMem, rfl⟩
  · -- count
    rw [hsett]
    have hc := hs.count
    simp only [List.length_append, List.length_singleton]
    omega
  · -- ledger preservation
    intro hinj hled n hn
    have hdiN : di < qs.length := (mem_debtorsOf.mp hdiMem).1
    have hcjN : cj < qs.length := (mem_creditorsOf.mp hcjMem).1
    have hname : nameAt qs cj ≠ nameAt qs di := fun h =>
      hne ((hinj cj di hcjN hdiN h).symm)
    rw [hsett, outSum_append, inSum_append]
    by_cases hndi : n = di
    · subst hndi
      rw [if_pos rfl, if_neg hname, hbal_d, hled di hn]
      ring
    · by_cases hncj : n = cj
      · subst hncj
        rw [if_neg (fun h => hname h.symm), if_pos rfl, hbal_c, hled cj hn]
        ring
      · have h1 : nameAt qs di ≠ nameAt qs n := fun h =>
          hndi ((hinj di n hdiN hn h).symm)
        have h2 : nameAt qs cj ≠ nameAt qs n := fun h =>
          hncj ((hinj cj n hcjN hn h).symm)
        rw [if_neg h1, if_neg h2, hbal_o _ hndi hncj, hled n hn]
        ring

theorem settleLoop_succ (names : ℕ → String) (debtors creditors : List ℕ)
    (fuel : ℕ) (s : SettleState) :
    settleLoop names debtors creditors (fuel + 1) s =
      if s.i < debtors.length ∧ s.j < creditors.length then
        settleLoop names debtors creditors fuel (settleStep names debtors creditors s)
      else s := rfl

/-- Running the loop from any state satisfying the invariant, with fuel at
least the number of unprocessed parties, preserves the invariant, ends
with a false guard (the source loop terminates), emits at most
`remaining - 1` further settlements, and preserves the ledger when names
are injective. -/
theorem settleLoop_inv {qs : List Participant} (fuel : ℕ) (s : SettleState)
    (hs : LoopInv qs s)
    (hfuel : ((debtorsOf qs).length - s.i) + ((creditorsOf qs).length - s.j) ≤ fuel) :
    LoopInv qs (settleLoop (nameAt qs) (debtorsOf qs) (creditorsOf qs) fuel s) ∧
      ¬((settleLoop (nameAt qs) (debtorsOf qs) (creditorsOf qs) fuel s).i <
          (debtorsOf qs).length ∧
        (settleLoop (nameAt qs) (debtorsOf qs) (creditorsOf qs) fuel s).j <
          (creditorsOf qs).length) ∧
      (settleLoop (nameAt qs) (debtorsOf qs) (creditorsOf qs) fuel s).settlements.length ≤
        s.settlements.length +
          (((debtorsOf qs).length - s.i) + ((creditorsOf qs).length - s.j) - 1) ∧
      (NameInj qs → Ledger qs s →
        Ledger qs (settleLoop (nameAt qs) (debtorsOf qs) (creditorsOf qs) fuel s)) := by
  induction fuel generalizing s with
  | zero =>
    have hng : ¬(s.i < (debtorsOf qs).length ∧ s.j < (creditorsOf qs).length) := by
      rintro ⟨h1, h2⟩
      omega
    exact ⟨hs, hng, Nat.le_add_right _ _, fun _ hled => hled⟩
  | succ fuel ih =>
    by_cases hguard : s.i < (debtorsOf qs).length ∧ s.j < (creditorsOf qs).length
    · obtain ⟨hinv1, hadv, hib, hjb, hledstep⟩ := settleStep_inv hs hguard.1 hguard.2
      have hlen1 : (settleStep (nameAt qs) (debtorsOf qs) (creditorsOf qs) s).settlements.length
          = s.settlements.length + 1 := by
        rw [settleStep_settlements]
        simp
      have hfuel1 : ((debtorsOf qs).length -
            (settleStep (nameAt qs) (debtorsOf qs) (creditorsOf qs) s).i) +
          ((creditorsOf qs).length -
            (settleStep (nameAt qs) (debtorsOf qs) (creditorsOf qs) s).j) ≤ fuel := by
        have h1 := hinv1.hi
        have h2 := hinv1.hj
        omega
      obtain ⟨hI, hG, hCount, hLed⟩ := ih _ hinv1 hfuel1
      rw [settleLoop_succ, if_pos hguard]
      refine ⟨hI, hG, ?_, fun hinj hled => hLed hinj (hledstep hinj hled)⟩
      have h1 := hinv1.hi
      have h2 := hinv1.hj
      omega
    · rw [settleLoop_succ, if_neg hguard]
      exact ⟨hs, hguard, Nat.le_add_right _ _, fun _ hled => hled⟩

theorem initState_inv (qs : List Participant) : LoopInv qs (initState qs) := by
  refine ⟨Nat.zero_le _, Nat.zero_le _, ?_, ?_, ?_, ?_, ?_, ?_, ?_, ?_, ?_⟩
  · intro k _ hklen
    have hmem := getD_mem_self (l := debtorsOf qs) hklen
    have := (mem_debtorsOf.mp hmem).2
    show balAt qs _ ≤ -(1/100)
    linarith
  · intro k _ hklen
    have hmem := getD_mem_self (l := creditorsOf qs) hklen
    have := (mem_creditorsOf.mp hmem).2
    show 1/100 ≤ balAt qs _
    linarith
  · intro k hk
    simp [initState] at hk
  · intro k hk
    simp [initState] at hk
  · intro n _ _
    rfl
  · intro t ht
    simp [initState] at ht
  · intro t ht
    simp [initState] at ht
  · intro t ht
    simp [initState] at ht
  · exact Nat.le_refl 0

theorem initState_ledger (qs : List Participant) : Ledger qs (initState qs) := by
  intro n hn
  simp [initState, outSum, inSum]

/-- All final-state facts about the loop run by `calculate_settlements`:
the invariant holds at the final state, the loop guard is false there
(termination within the fuel), at most
`count(debtors) + count(creditors) - 1` settlements are emitted, and with
injective names the ledger relation holds. -/
theorem runSettle_inv (qs : List Participant) :
    LoopInv qs (runSettle qs) ∧
      ¬((runSettle qs).i < (debtorsOf qs).length ∧
        (runSettle qs).j < (creditorsOf qs).length) ∧
      (runSettle qs).settlements.length ≤
        (debtorsOf qs).length + (creditorsOf qs).length - 1 ∧
      (NameInj qs → Ledger qs (runSettle qs)) := by
  have h := settleLoop_inv ((debtorsOf qs).length + (creditorsOf qs).length)
    (initState qs) (initState_inv qs) (by simp [initState])
  obtain ⟨h1, h2, h3, h4⟩ := h
  exact ⟨h1, h2, by simpa [initState] using h3, fun hinj => h4 hinj (initState_ledger qs)⟩

/-! ## Bridging lemmas for calculate_settlements on non-empty input -/

theorem calculate_settlements_fst {ps : List Participant} (h : ps ≠ []) (T : ℚ) :
    (calculate_settlements ps T).1 =
      annotate (setBalances ps T) (runSettle (setBalances ps T)).bal 0 := by
  cases ps with
  | nil => exact absurd rfl h
  | cons p rest => rfl

theorem calculate_settlements_snd {ps : List Participant} (h : ps ≠ []) (T : ℚ) :
    (calculate_settlements ps T).2 = (runSettle (setBalances ps T)).settlements := by
  cases ps with
  | nil => exact absurd rfl h
  | cons p rest => rfl

/-! ## Claim theorems -/

/-- C6: for the empty participant list, `calculate_settlements` returns
the pair of an empty participant list and an empty transfer list; the
guard returns before the per-person share (total / count) is ever
computed, so the division with count zero is unreachable in the model by
construction. -/
theorem c6_empty_input (total_amount : ℚ) :
    calculate_settlements [] total_amount = ([], []) := rfl

/-- C8: for total 90 and participants A(0), B(30), C(60), the balance
annotation step sets balances -30, 0, 30, and the function returns
exactly one transfer, from A to C, of amount 30. -/
theorem c8_concrete_example :
    (setBalances [{ name := "A", contribution := 0 }, { name := "B", contribution := 30 },
        { name := "C", contribution := 60 }] 90).map Participant.settlement_amount =
      [-30, 0, 30] ∧
    (calculate_settlements [{ name := "A", contribution := 0 },
        { name := "B", contribution := 30 }, { name := "C", contribution := 60 }] 90).2 =
      [{ from_person := "A", to_person := "C", amount := 30 }] := by
  with_unfolding_all decide

/-- C10: the matching loop terminates on every input: with fuel
`count(debtors) + count(creditors)` the loop guard is already false at
the final state (each iteration advances at least one pointer), and
since each iteration emits exactly one settlement, the number of
emitted settlements — the number of iterations the source loop makes —
is at most `count(debtors) + count(creditors)`. -/
theorem c10_loop_terminates (ps : List Participant) (T : ℚ) :
    ¬((runSettle (setBalances ps T)).i < (debtorsOf (setBalances ps T)).length ∧
      (runSettle (setBalances ps T)).j < (creditorsOf (setBalances ps T)).length) ∧
    (calculate_settlements ps T).2.length ≤
      (debtorsOf (setBalances ps T)).length + (creditorsOf (setBalances ps T)).length := by
  obtain ⟨_, h2, h3, _⟩ := runSettle_inv (setBalances ps T)
  refine ⟨h2, ?_⟩
  cases ps with
  | nil => simp [calculate_settlements]
  | cons p rest =>
    rw [calculate_settlements_snd (List.cons_ne_nil p rest) T]
    exact le_trans h3 (Nat.sub_le _ _)

/-- C2 (amended): whenever there is at least one debtor or creditor, the
number of emitted transfers is at most
`count(debtors) + count(creditors) - 1`; the unamended claim fails only
for inputs with no debtors and no creditors, where no transfer is
emitted but the claimed bound is -1. -/
theorem c2_transfer_count (ps : List Participant) (T : ℚ)
    (h : 1 ≤ (debtorsOf (setBalances ps T)).length + (creditorsOf (setBalances ps T)).length) :
    ((calculate_settlements ps T).2.length : ℤ) ≤
      ((debtorsOf (setBalances ps T)).length : ℤ) +
        ((creditorsOf (setBalances ps T)).length : ℤ) - 1 := by
  obtain ⟨_, _, h3, _⟩ := runSettle_inv (setBalances ps T)
  cases ps with
  | nil =>
    simp only [calculate_settlements, List.length_nil]
    omega
  | cons p rest =>
    rw [calculate_settlements_snd (List.cons_ne_nil p rest) T]
    omega

/-- Counterexample to C2 as frozen: a single fully-paid participant has
no debtors and no creditors; no transfer is emitted, but the claimed
bound `count(debtors) + count(creditors) - 1` is `-1`, which the
transfer count 0 exceeds. -/
theorem c2_counterexample :
    ¬(((calculate_settlements [{ name := "A", contribution := 5 }] 5).2.length : ℤ) ≤
      ((debtorsOf (setBalances [{ name := "A", contribution := 5 }] 5)).length : ℤ) +
        ((creditorsOf (setBalances [{ name := "A", contribution := 5 }] 5)).length : ℤ) - 1) := by
  with_unfolding_all decide

/-- Witness for the amended C2 at a concrete input with one debtor and
one creditor: one transfer is emitted, and 1 ≤ 1 + 1 - 1. -/
theorem c2_witness :
    ((calculate_settlements [{ name := "A", contribution := 0 },
        { name := "B", contribution := 10 }] 10).2.length : ℤ) ≤
      ((debtorsOf (setBalances [{ name := "A", contribution := 0 },
          { name := "B", contribution := 10 }] 10)).length : ℤ) +
        ((creditorsOf (setBalances [{ name := "A", contribution := 0 },
            { name := "B", contribution := 10 }] 10)).length : ℤ) - 1 :=
  c2_transfer_count _ 10 (by with_unfolding_all decide)

/-! ## Rounding facts -/

theorem abs_roundHalfEven_sub (q : ℚ) : |(roundHalfEven q : ℚ) - q| ≤ 1/2 := by
  have h1 : (⌊q⌋ : ℚ) ≤ q := Int.floor_le q
  have h2 : q < (⌊q⌋ : ℚ) + 1 := Int.lt_floor_add_one q
  unfold roundHalfEven
  split_ifs with h3 h4 h5
  · rw [abs_le]
    constructor <;> linarith
  · push_neg at h3
    rw [abs_le]
    push_cast
    constructor <;> linarith
  · push_neg at h3 h4
    rw [abs_le]
    constructor <;> linarith
  · push_neg at h3 h4
    rw [abs_le]
    push_cast
    constructor <;> linarith

theorem abs_round2_sub (q : ℚ) : |round2 q - q| ≤ 1/200 := by
  have h := abs_roundHalfEven_sub (q * 100)
  rw [round2]
  have hq : (roundHalfEven (q * 100) : ℚ) / 100 - q =
      ((roundHalfEven (q * 100) : ℚ) - q * 100) / 100 := by ring
  rw [hq, abs_div, show |(100 : ℚ)| = 100 from abs_of_pos (by norm_num)]
  linarith

/-- C7: every emitted transfer has a strictly positive amount (in fact at
least one cent, because the remaining balances at both pointers are at
least one cent in absolute value whenever a transfer is emitted), and its
serialized amount is the amount rounded to two decimal places: an integer
multiple of 1/100 within half a cent of the raw amount. -/
theorem c7_amounts_positive (ps : List Participant) (T : ℚ) (t : Settlement)
    (ht : t ∈ (calculate_settlements ps T).2) :
    0 < t.amount ∧ (∃ z : ℤ, (Settlement.to_dict t).amount = (z : ℚ) / 100) ∧
      |(Settlement.to_dict t).amount - t.amount| ≤ 1/200 := by
  have hpos : (1/100 : ℚ) ≤ t.amount := by
    cases ps with
    | nil => simp [calculate_settlements] at ht
    | cons p rest =>
      rw [calculate_settlements_snd (List.cons_ne_nil p rest) T] at ht
      exact (runSettle_inv _).1.amounts t ht
  exact ⟨by linarith, ⟨roundHalfEven (t.amount * 100), rfl⟩, abs_round2_sub t.amount⟩

/-- Witness for C7 at the concrete A/B/C example: the emitted transfer
A → C of 30 is positive and its serialized amount is within half a cent
of the raw amount. -/
theorem c7_witness :
    0 < ({ from_person := "A", to_person := "C", amount := 30 } : Settlement).amount ∧
    |(Settlement.to_dict { from_person := "A", to_person := "C", amount := 30 }).amount -
      ({ from_person := "A", to_person := "C", amount := 30 } : Settlement).amount| ≤ 1/200 :=
  ⟨(c7_amounts_positive [{ name := "A", contribution := 0 },
      { name := "B", contribution := 30 }, { name := "C", contribution := 60 }] 90 _
      (by with_unfolding_all decide)).1,
   (c7_amounts_positive [{ name := "A", contribution := 0 },
      { name := "B", contribution := 30 }, { name := "C", contribution := 60 }] 90 _
      (by with_unfolding_all decide)).2.2⟩

theorem sum_map_sub_const (l : List Participant) (c : ℚ) :
    (l.map fun p => p.contribution - c).sum =
      (l.map Participant.contribution).sum - (l.length : ℚ) * c := by
  induction l with
  | nil => simp
  | cons p rest ih =>
    simp only [List.map_cons, List.sum_cons, ih, List.length_cons]
    push_cast
    ring

/-- C3: when the input contributions sum to the total amount, the
balances set in step 2 (contribution minus total/count) sum to exactly
zero. -/
theorem c3_balances_sum_zero (ps : List Participant) (T : ℚ) (hne : ps ≠ [])
    (hsum : (ps.map Participant.contribution).sum = T) :
    ((setBalances ps T).map Participant.settlement_amount).sum = 0 := by
  have hn : (ps.length : ℚ) ≠ 0 :=
    Nat.cast_ne_zero.mpr (fun h => hne (List.length_eq_zero.mp h))
  have hmap : (setBalances ps T).map Participant.settlement_amount =
      ps.map fun p => p.contribution - per_person_share ps T := by
    simp [setBalances, List.map_map]
  rw [hmap, sum_map_sub_const, hsum, per_person_share]
  field_simp

/-- Witness for C3 at the concrete A/B/C example. -/
theorem c3_witness :
    ((setBalances [{ name := "A", contribution := 0 }, { name := "B", contribution := 30 },
        { name := "C", contribution := 60 }] 90).map Participant.settlement_amount).sum = 0 :=
  c3_balances_sum_zero _ 90 (by with_unfolding_all decide) (by with_unfolding_all decide)

theorem map_annotate (g : Participant → Participant)
    (hg : ∀ p x, g { p with settlement_amount := x } = g p) :
    ∀ (l : List Participant) (f : ℕ → ℚ) (k : ℕ), (annotate l f k).map g = l.map g := by
  intro l
  induction l with
  | nil => intro f k; rfl
  | cons p rest ih =>
    intro f k
    simp only [annotate, List.map_cons, hg, ih]

theorem setBalances_annotate (l : List Participant) (f : ℕ → ℚ) (k : ℕ) (T : ℚ) :
    setBalances (annotate l f k) T = setBalances l T := by
  unfold setBalances
  rw [show per_person_share (annotate l f k) T = per_person_share l T by
    unfold per_person_share
    rw [length_annotate]]
  exact map_annotate
    (fun p => { p with settlement_amount := p.contribution - per_person_share l T })
    (fun p x => rfl) l f k

theorem setBalances_setBalances (ps : List Participant) (T : ℚ) :
    setBalances (setBalances ps T) T = setBalances ps T := by
  unfold setBalances per_person_share
  rw [List.length_map, List.map_map]
  rfl

/-- C4: `calculate_settlements` is deterministic (it is a pure function of
its input) and idempotent: feeding the returned, already-annotated
participants back in with the same total reproduces the identical result,
transfers in the same order, because balances are recomputed from the
unchanged contributions and the partition and sorts are deterministic. -/
theorem c4_idempotent (ps : List Participant) (T : ℚ) :
    calculate_settlements ((calculate_settlements ps T).1) T = calculate_settlements ps T := by
  cases ps with
  | nil => rfl
  | cons p rest =>
    rw [show (calculate_settlements (p :: rest) T).1 =
      annotate (setBalances (p :: rest) T) (runSettle (setBalances (p :: rest) T)).bal 0 from rfl]
    have hlen := length_annotate (setBalances (p :: rest) T)
      (runSettle (setBalances (p :: rest) T)).bal 0
    have hne : annotate (setBalances (p :: rest) T)
        (runSettle (setBalances (p :: rest) T)).bal 0 ≠ [] := by
      intro h
      rw [h] at hlen
      simp [setBalances] at hlen
    have hsetb : setBalances (annotate (setBalances (p :: rest) T)
        (runSettle (setBalances (p :: rest) T)).bal 0) T = setBalances (p :: rest) T :=
      (setBalances_annotate _ _ 0 T).trans (setBalances_setBalances _ T)
    have h1 := calculate_settlements_fst hne T
    have h2 := calculate_settlements_snd hne T
    rw [hsetb] at h1 h2
    rw [Prod.ext_iff]
    refine ⟨?_, ?_⟩
    · rw [h1, calculate_settlements_fst (List.cons_ne_nil p rest) T]
    · rw [h2, calculate_settlements_snd (List.cons_ne_nil p rest) T]

/-- C5: the partition comparisons are strict, so a participant whose
balance has absolute value at most one cent — the boundary values 0.01
and -0.01 included — is treated as settled: it is excluded from both the
debtor and the creditor partition and, when names are pairwise distinct,
it never occurs as `from` or `to` of any emitted transfer. -/
theorem c5_settled_excluded (ps : List Participant) (T : ℚ) (k : ℕ)
    (hk : k < ps.length) (hnames : (ps.map Participant.name).Nodup)
    (hsettled : |(ps.getD k P0).contribution - T / (ps.length : ℚ)| ≤ 1/100) :
    k ∉ debtorsOf (setBalances ps T) ∧ k ∉ creditorsOf (setBalances ps T) ∧
      ∀ t ∈ (calculate_settlements ps T).2,
        t.from_person ≠ (ps.getD k P0).name ∧ t.to_person ≠ (ps.getD k P0).name := by
  have hbal : balAt (setBalances ps T) k =
      (ps.getD k P0).contribution - T / (ps.length : ℚ) := balAt_setBalances ps T hk
  have habs := abs_le.mp hsettled
  have hnd : k ∉ debtorsOf (setBalances ps T) := by
    intro hmem
    have h := (mem_debtorsOf.mp hmem).2
    rw [hbal] at h
    linarith [habs.1]
  have hnc : k ∉ creditorsOf (setBalances ps T) := by
    intro hmem
    have h := (mem_creditorsOf.mp hmem).2
    rw [hbal] at h
    linarith [habs.2]
  refine ⟨hnd, hnc, ?_⟩
  intro t ht
  have hne : ps ≠ [] := by
    intro h
    rw [h] at hk
    simp at hk
  rw [calculate_settlements_snd hne T] at ht
  have hinj : NameInj (setBalances ps T) := by
    apply nameInj_of_nodup
    rw [map_name_setBalances]
    exact hnames
  have hkq : k < (setBalances ps T).length := by rwa [length_setBalances]
  have hnamek : nameAt (setBalances ps T) k = (ps.getD k P0).name := nameAt_setBalances ps T hk
  obtain ⟨hInv, _, _, _⟩ := runSettle_inv (setBalances ps T)
  constructor
  · intro heq
    obtain ⟨m, hmMem, hmname⟩ := hInv.from_names t ht
    have hmN : m < (setBalances ps T).length := (mem_debtorsOf.mp hmMem).1
    have hmk : m = k := hinj m k hmN hkq (hmname.symm.trans (heq.trans hnamek.symm))
    exact hnd (hmk ▸ hmMem)
  · intro heq
    obtain ⟨m, hmMem, hmname⟩ := hInv.to_names t ht
    have hmN : m < (setBalances ps T).length := (mem_creditorsOf.mp hmMem).1
    have hmk : m = k := hinj m k hmN hkq (hmname.symm.trans (heq.trans hnamek.symm))
    exact hnc (hmk ▸ hmMem)

/-- Witness for C5 at a boundary input: participant A has balance exactly
0.01 and is excluded from both the debtor and the creditor partition. -/
theorem c5_witness :
    0 ∉ debtorsOf (setBalances [{ name := "A", contribution := 101/100 },
        { name := "B", contribution := 99/100 }] 2) ∧
    0 ∉ creditorsOf (setBalances [{ name := "A", contribution := 101/100 },
        { name := "B", contribution := 99/100 }] 2) :=
  ⟨(c5_settled_excluded [{ name := "A", contribution := 101/100 },
        { name := "B", contribution := 99/100 }] 2 0
      (by with_unfolding_all decide) (by with_unfolding_all decide)
      (by with_unfolding_all decide)).1,
   (c5_settled_excluded [{ name := "A", contribution := 101/100 },
        { name := "B", contribution := 99/100 }] 2 0
      (by with_unfolding_all decide) (by with_unfolding_all decide)
      (by with_unfolding_all decide)).2.1⟩

/-- Counterexample to C1 as frozen: for two participants who both
contributed nothing against a total of 100, both are debtors and there
are no creditors, so no transfer is emitted; participant A is in the
result, its balance (contribution minus share) is -50, but received
minus paid is 0, off by 50, far beyond the claimed tolerance. -/
theorem c1_counterexample :
    ({ name := "A", contribution := 0, phone_number := none, settlement_amount := -50 } :
        Participant) ∈
      (calculate_settlements [{ name := "A", contribution := 0 },
        { name := "B", contribution := 0 }] 100).1 ∧
    ¬(|inSum "A" (calculate_settlements [{ name := "A", contribution := 0 },
            { name := "B", contribution := 0 }] 100).2 -
        outSum "A" (calculate_settlements [{ name := "A", contribution := 0 },
            { name := "B", contribution := 0 }] 100).2 -
        ((0 : ℚ) - 100 / 2)| ≤ 1/100) := by
  with_unfolding_all decide

/-- C1 (amended): for every non-empty participant list with pairwise
distinct names on which the matching loop consumes the debtor and the
creditor list completely, every participant p of the result satisfies
`|inSum(p) - outSum(p) - balance(p)| ≤ 0.01` where balance is
contribution minus total/count; the deviation always equals the final
residual balance of p, which is within one cent exactly for the fully
processed and the settled parties. -/
theorem c1_transfer_sums (ps : List Participant) (T : ℚ)
    (hne : ps ≠ []) (hnames : (ps.map Participant.name).Nodup)
    (hdone : (runSettle (setBalances ps T)).i = (debtorsOf (setBalances ps T)).length ∧
      (runSettle (setBalances ps T)).j = (creditorsOf (setBalances ps T)).length)
    (p : Participant) (hp : p ∈ (calculate_settlements ps T).1) :
    |inSum p.name (calculate_settlements ps T).2 -
      outSum p.name (calculate_settlements ps T).2 -
      (p.contribution - T / (ps.length : ℚ))| ≤ 1/100 := by
  rw [calculate_settlements_fst hne T] at hp
  rw [calculate_settlements_snd hne T]
  obtain ⟨k, hkq, rfl⟩ := mem_annotate.mp hp
  have hkps : k < ps.length := by rwa [length_setBalances] at hkq
  have hinj : NameInj (setBalances ps T) := by
    apply nameInj_of_nodup
    rw [map_name_setBalances]
    exact hnames
  obtain ⟨hInv, _, _, hledger⟩ := runSettle_inv (setBalances ps T)
  have hled := hledger hinj k hkq
  have hcon : ((setBalances ps T).getD k P0).contribution = (ps.getD k P0).contribution := by
    rw [getD_setBalances ps T hkps]
  show |inSum (nameAt (setBalances ps T) k) (runSettle (setBalances ps T)).settlements -
      outSum (nameAt (setBalances ps T) k) (runSettle (setBalances ps T)).settlements -
      (((setBalances ps T).getD k P0).contribution - T / (ps.length : ℚ))| ≤ 1/100
  rw [hcon, ← balAt_setBalances ps T hkps]
  have hexpr : inSum (nameAt (setBalances ps T) k) (runSettle (setBalances ps T)).settlements -
      outSum (nameAt (setBalances ps T) k) (runSettle (setBalances ps T)).settlements -
      balAt (setBalances ps T) k = -((runSettle (setBalances ps T)).bal k) := by
    rw [hled]
    ring
  rw [hexpr, abs_neg]
  by_cases hkd : k ∈ debtorsOf (setBalances ps T)
  · obtain ⟨pos, hpos, hposk⟩ := List.mem_iff_getElem.mp hkd
    have hfin := hInv.done_deb pos (by rw [hdone.1]; exact hpos)
    rw [List.getD_eq_getElem _ _ hpos, hposk] at hfin
    linarith
  · by_cases hkc : k ∈ creditorsOf (setBalances ps T)
    · obtain ⟨pos, hpos, hposk⟩ := List.mem_iff_getElem.mp hkc
      have hfin := hInv.done_cred pos (by rw [hdone.2]; exact hpos)
      rw [List.getD_eq_getElem _ _ hpos, hposk] at hfin
      linarith
    · have hun := hInv.untouched k hkd hkc
      rw [hun, abs_le]
      have h1 : ¬(balAt (setBalances ps T) k < -(1/100)) := fun h =>
        hkd (mem_debtorsOf.mpr ⟨hkq, h⟩)
      have h2 : ¬(1/100 < balAt (setBalances ps T) k) := fun h =>
        hkc (mem_creditorsOf.mpr ⟨hkq, h⟩)
      constructor <;> linarith [not_lt.mp h1, not_lt.mp h2]

/-- Witness for the amended C1 at the A/B/C example, where the loop
consumes both lists completely: for A, received minus paid is -30 and
the balance is 0 - 90/3 = -30, deviation 0. -/
theorem c1_witness :
    |inSum "A" (calculate_settlements [{ name := "A", contribution := 0 },
          { name := "B", contribution := 30 }, { name := "C", contribution := 60 }] 90).2 -
      outSum "A" (calculate_settlements [{ name := "A", contribution := 0 },
          { name := "B", contribution := 30 }, { name := "C", contribution := 60 }] 90).2 -
      ((0 : ℚ) - 90 / (([{ name := "A", contribution := 0 },
          { name := "B", contribution := 30 }, { name := "C", contribution := 60 }] :
            List Participant).length : ℚ))| ≤ 1/100 :=
  c1_transfer_sums [{ name := "A", contribution := 0 },
      { name := "B", contribution := 30 }, { name := "C", contribution := 60 }] 90
    (by with_unfolding_all decide) (by with_unfolding_all decide)
    (by with_unfolding_all decide)
    { name := "A", contribution := 0, phone_number := none, settlement_amount := 0 }
    (by with_unfolding_all decide)

/-- C9: when explicit participants are supplied and every other check
passes (amount bounds, people bounds, count match, and the
per-participant checks succeed with contribution sum c), the sum check
decides validation: a discrepancy of more than one cent yields
`(false, non-empty message)` and `create_expense` answers that error
without ever invoking the settlement engine; a discrepancy of at most
one cent yields `(true, "")`. -/
theorem c9_sum_check (d : ExpenseData) (c : ℚ)
    (hp : d.participants ≠ [])
    (h1 : ¬ d.total_amount < MIN_AMOUNT)
    (h2 : ¬ MAX_AMOUNT < d.total_amount)
    (h3 : ¬ d.num_people < 1)
    (h4 : ¬ MAX_PARTICIPANTS < d.num_people)
    (h5 : (d.participants.length : ℤ) = d.num_people)
    (h6 : checkParticipants d.participants 0 = .ok c) :
    (1/100 < |c - d.total_amount| →
      validate_expense_data d = (false, "Sum of contributions must equal total amount") ∧
      "Sum of contributions must equal total amount" ≠ "" ∧
      create_expense d = .error "Sum of contributions must equal total amount") ∧
    (|c - d.total_amount| ≤ 1/100 → validate_expense_data d = (true, "")) := by
  obtain ⟨a, rest, hd⟩ : ∃ a rest, d.participants = a :: rest := by
    cases hps : d.participants with
    | nil => exact absurd hps hp
    | cons a rest => exact ⟨a, rest, rfl⟩
  rw [hd] at h5 h6
  have hval : validate_expense_data d =
      if 1/100 < |c - d.total_amount| then
        (false, "Sum of contributions must equal total amount")
      else (true, "") := by
    unfold validate_expense_data
    rw [if_neg h1, if_neg h2, if_neg h3, if_neg h4, hd]
    dsimp only
    rw [if_neg (fun hcon => hcon h5), h6]
  constructor
  · intro h
    have hv : validate_expense_data d =
        (false, "Sum of contributions must equal total amount") := by
      rw [hval, if_pos h]
    refine ⟨hv, by decide, ?_⟩
    unfold create_expense
    rw [hv]
    simp
  · intro h
    rw [hval, if_neg (not_lt.mpr h)]

/-- Witness for C9 at a concrete rejecting input: contributions sum to 99
against a total of 100, validation fails with the non-empty sum message
and create_expense answers that error. -/
theorem c9_witness :
    validate_expense_data ⟨100, 2, [⟨"A", 60, ""⟩, ⟨"B", 39, ""⟩]⟩ =
      (false, "Sum of contributions must equal total amount") ∧
    "Sum of contributions must equal total amount" ≠ "" ∧
    create_expense ⟨100, 2, [⟨"A", 60, ""⟩, ⟨"B", 39, ""⟩]⟩ =
      .error "Sum of contributions must equal total amount" :=
  (c9_sum_check ⟨100, 2, [⟨"A", 60, ""⟩, ⟨"B", 39, ""⟩]⟩ 99
    (by with_unfolding_all decide) (by with_unfolding_all decide)
    (by with_unfolding_all decide) (by with_unfolding_all decide)
    (by with_unfolding_all decide) (by with_unfolding_all decide)
    (by with_unfolding_all rfl)).1 (by with_unfolding_all decide)
